import Mathlib

/-!
Verification of the Palantir server against its specification.

The development shallowly embeds the Rust sources of the server
(`src/server/src`): pure helper functions become Lean functions, the
SQLite tables become lists of records, the analyzer's streaming loop
becomes a fold over parsed log lines, and the HTTP upload handler
becomes a state transformer on the store.  Machine integers (`i64`,
`usize`) are modelled as `Int`/`Nat`; the magnitudes involved never
approach overflow, except where noted (SQLite `CAST` saturation, which
is modelled explicitly).  Timestamps (`time::OffsetDateTime`) are
modelled as `Int` nanoseconds since the epoch: the `time` crate stores
nanosecond precision and all comparisons and subtractions in the
sources are exact, so this embedding is faithful.  The RFC 3339 parser
(`parse_rfc3339`, a thin wrapper over the external `time` crate) and
SHA-256 (the external `sha2` crate) are treated as abstract function
parameters, since their internals are outside the repository.
-/

/- ===================== string helpers ===================== -/

/-- Characters of `s` with ASCII uppercase mapped to lowercase
(Rust `str::to_ascii_lowercase`; `Char.toLower` is ASCII-only, matching). -/
def asciiLower (s : String) : String :=
  String.mk (s.data.map Char.toLower)

/-- Rust `str::starts_with` on string literals. -/
def strStartsWith (s pre : String) : Bool :=
  pre.data.isPrefixOf s.data

/-- Rust `str::ends_with` on string literals. -/
def strEndsWith (s suf : String) : Bool :=
  decide (suf.data <:+ s.data)

/-- Rust `str::contains` (substring search). -/
def strContains (s sub : String) : Bool :=
  decide (sub.data <:+: s.data)

/-- Rust `str::replace` specialised to a single-character pattern, the
only form the sources use (`now.replace(':', "_")`, `name.replace(' ', "_")`). -/
def charReplace (s : String) (c d : Char) : String :=
  String.mk (s.data.map fun x => if x = c then d else x)

/-- Rust `str::split(sep)` on a single character (keeps empty pieces,
like Rust's `split`). -/
def splitChar (c : Char) : List Char → List (List Char)
  | [] => [[]]
  | x :: xs =>
    match splitChar c xs with
    | [] => [[]]
    | h :: t => if x = c then [] :: h :: t else (x :: h) :: t

/- ===================== consts.rs ===================== -/

def BROWSERS : List String :=
  ["firefox", "chrome", "chromium", "brave", "edge", "opera"]

def SHELLS : List String :=
  ["bash", "zsh", "fish", "sh", "dash"]

def REMOTE_TOOLS : List String :=
  ["anydesk", "teamviewer", "rustdesk", "remmina", "x11vnc", "vino", "vnc",
   "zoom", "teams", "discord", "slack", "skype", "gotomeeting", "webex",
   "jitsi", "google-meet", "msteams", "telegram", "signal"]

def SSH_LIKE : List String :=
  ["ssh", "scp", "sftp", "mosh"]

def DOWNLOAD_TOOLS : List String :=
  ["curl", "wget", "pip", "pip3", "conda", "npm", "pnpm", "yarn", "apt",
   "dnf", "pacman"]

def SEARCH_BASES : List String :=
  ["google.com", "bing.com", "duckduckgo.com"]

def QNA_BASES : List String :=
  ["stackoverflow.com", "stackexchange.com"]

def CODE_HOST_BASES : List String :=
  ["github.com", "gitlab.com", "bitbucket.org"]

def PKG_BASES : List String :=
  ["pypi.org", "pythonhosted.org", "npmjs.com", "registry.npmjs.org",
   "crates.io"]

def CLOUD_BASES : List String :=
  ["drive.google.com", "dropbox.com", "mega.nz", "wetransfer.com",
   "pastebin.com", "hastebin.com", "ghostbin.com"]

def AI_PROVIDER_BASES : List String :=
  ["openai.com", "chatgpt.com", "anthropic.com", "claude.ai", "ai.google",
   "deepmind.com", "gemini.google.com", "cognitive.microsoft.com",
   "githubcopilot.com", "openai.azure.com", "azureopenai.com", "ai.meta.com",
   "llama.meta.com", "mistral.ai", "cohere.ai", "stability.ai", "ai21.com",
   "perplexity.ai", "huggingface.co", "replicate.com", "runpod.io",
   "openrouter.ai", "poe.com", "x.ai", "you.com", "character.ai",
   "elevenlabs.io", "jasper.ai", "writesonic.com", "copy.ai", "rytr.me",
   "forefront.ai", "midjourney.com", "replit.com"]

def PRIVATE_IPV4_PREFIXES : List String :=
  ["10.", "192.168.", "172.16.", "172.17.", "172.18.", "172.19.", "172.20.",
   "172.21.", "172.22.", "172.23.", "172.24.", "172.25.", "172.26.",
   "172.27.", "172.28.", "172.29.", "172.30.", "172.31."]

/-- Helper for proc-name matching (`consts.rs::name_is_in`). -/
def name_is_in (name : String) (set : List String) : Bool :=
  let c := asciiLower name
  set.any fun b =>
    c == b || strContains c b || strEndsWith c ("/" ++ b) ||
      strStartsWith c (b ++ " ")

/-- Guess the base domain by keeping the last two non-empty dot-separated
labels (`consts.rs::base_domain_guess`). -/
def base_domain_guess (host : String) : String :=
  let parts := (splitChar '.' host.data).filter (fun s => !s.isEmpty)
  match parts.reverse with
  | last :: second :: _ => String.mk (second ++ '.' :: last)
  | _ => asciiLower host

/-- Simple private IPv4 check (`consts.rs::is_private_ipv4`). -/
def is_private_ipv4 (ip : String) : Bool :=
  PRIVATE_IPV4_PREFIXES.any (fun p => strStartsWith ip p)

def ALLOWED_KEYS_NUM : List String :=
  ["duration_minutes", "requests_per_min", "total_net_events",
   "unique_domains", "burst_max_events_per_min", "final5_net_events",
   "total_proc_starts", "total_proc_stops", "browser_runtime_seconds",
   "shell_invocations", "external_download_tool_count", "ai_hits_total",
   "ai_ratio_percent", "qna_hits", "code_host_hits", "search_hits",
   "pkg_hits", "cloud_hits"]

def ALLOWED_KEYS_BOOL : List String :=
  ["had_browser", "remote_collab_tool_seen", "ssh_activity"]

def ALLOWED_OPS : List String :=
  ["gt", "ge", "eq", "le", "lt", "ne", "exists"]

/- ===================== findings & filter language ===================== -/

/-- One finding attributed to a submission (kind, key, value); the row id,
submission reference and creation time are kept where the claim needs them. -/
structure FindingT where
  kind : String
  key : String
  value : String
deriving DecidableEq

/-- Pull out the values of all findings with the given key, in order. -/
def valuesOfKey (fs : List FindingT) (k : String) : List String :=
  fs.filterMap fun f => if f.key == k then some f.value else none

/-- Number of findings with the given key. -/
def countKey (fs : List FindingT) (k : String) : Nat :=
  (valuesOfKey fs k).length

/-- A parsed filter item from the `filters=` query parameter. -/
structure FilterItem where
  key : String
  op : String
  val : Option String
deriving DecidableEq

/-- Value of the digit-prefix of a string (what SQLite's
`CAST(text AS INTEGER)` extracts when the text starts with a digit). -/
def digitsPrefixVal : List Char → Int
  | [] => 0
  | c :: r => if c.isDigit then digitsPrefixValGo (Int.ofNat (c.toNat - 48)) r else 0
where digitsPrefixValGo (acc : Int) : List Char → Int
  | [] => acc
  | c :: r => if c.isDigit then digitsPrefixValGo (10 * acc + Int.ofNat (c.toNat - 48)) r else acc

def I64_MAX : Int := 9223372036854775807

def I64_MIN : Int := -9223372036854775808

/-- SQLite `CAST(value AS INTEGER)` for the values that can reach it here:
every call site first filters with `GLOB '[0-9]*'`, so the value starts
with a decimal digit; SQLite then takes the longest digit prefix,
saturating at the i64 maximum. -/
def sqliteCastInt (v : String) : Int :=
  min (digitsPrefixVal v.data) I64_MAX

/-- SQLite `value GLOB '[0-9]*'`: the first character is a decimal digit
(the `*` matches any remainder). -/
def globDigitStar (v : String) : Bool :=
  match v.data with
  | [] => false
  | c :: _ => c.isDigit

/-- Rust `str::parse::<i64>()`: optional sign, then only decimal digits,
non-empty, within i64 range. -/
def rustParseI64 (s : String) : Option Int :=
  let core : List Char → Option Int := fun ds =>
    if ds = [] ∨ ¬ ds.all Char.isDigit then none
    else some (ds.foldl (fun acc c => 10 * acc + Int.ofNat (c.toNat - 48)) 0)
  match s.data with
  | '+' :: ds => (core ds).bind fun n => if n ≤ I64_MAX then some n else none
  | '-' :: ds => (core ds).bind fun n => if -n ≥ I64_MIN then some (-n) else none
  | ds => (core ds).bind fun n => if n ≤ I64_MAX then some n else none

/-- The comparison value: `f.val.as_deref().unwrap_or("0").parse().unwrap_or(0)`. -/
def filterVal (v : Option String) : Int :=
  (rustParseI64 (v.getD "0")).getD 0

/-- Integer comparison selected by the op string (the SQL operator chosen
in `build_where_for_filters`). -/
def intCmp (op : String) (x y : Int) : Bool :=
  match op with
  | "gt" => decide (x > y)
  | "ge" => decide (x ≥ y)
  | "eq" => x == y
  | "le" => decide (x ≤ y)
  | "lt" => decide (x < y)
  | "ne" => x != y
  | _ => false

/-- SQLite `lower(value) = 'true'`-style truthiness used for the `want`
side: `matches!(val.to_ascii_lowercase(), "true" | "1" | "yes")`. -/
def truthyVal (s : String) : Bool :=
  let t := asciiLower s
  t == "true" || t == "1" || t == "yes"

/-- Semantics of the single SQL clause `build_where_for_filters` appends
for one `FilterItem`, evaluated against the finding rows of one
submission (the `EXISTS` subquery is correlated on the submission id, so
`rows` are exactly that submission's findings).  A filter that appends
no clause (unknown op, unknown key, non-eq/ne op on a boolean key)
constrains nothing and is `true`. -/
def filterClauseHolds (rows : List FindingT) (f : FilterItem) : Bool :=
  if f.op ∉ ALLOWED_OPS then true
  else if f.key ∈ ALLOWED_KEYS_NUM then
    if f.op == "exists" then
      rows.any fun r => r.key == f.key && globDigitStar r.value
    else
      rows.any fun r =>
        r.key == f.key && globDigitStar r.value &&
          intCmp f.op (sqliteCastInt r.value) (filterVal f.val)
  else if f.key ∈ ALLOWED_KEYS_BOOL then
    if f.op == "exists" then
      rows.any fun r => r.key == f.key
    else if f.op == "eq" || f.op == "ne" then
      let want := truthyVal ((f.val).getD "false")
      let target := if want then "true" else "false"
      rows.any fun r =>
        r.key == f.key &&
          (if f.op == "eq" then asciiLower r.value == target
           else asciiLower r.value != target)
    else true
  else true

/-- Conjunction of all appended clauses: the `WHERE` fragment built by
`build_where_for_filters`. -/
def build_where_for_filters (rows : List FindingT) (fs : List FilterItem) : Bool :=
  fs.all (filterClauseHolds rows)

/- ===================== subscriptions (db.rs) ===================== -/

/-- One row of the `subscriptions` table. -/
structure SubscriptionR where
  prof : String
  assignment_id : String
  created_at : String
deriving DecidableEq

/-- Does a row with this `(prof, assignment_id)` pair exist?  The table
carries `UNIQUE(prof, assignment_id)`. -/
def hasSubscription (t : List SubscriptionR) (p a : String) : Bool :=
  t.any fun r => r.prof == p && r.assignment_id == a

/-- `db::subscribe`: `INSERT OR IGNORE INTO subscriptions(...)`.  Under
the UNIQUE constraint the insert is ignored when the pair already
exists, otherwise the row is appended. -/
def subscribe (t : List SubscriptionR) (p a created_at : String) : List SubscriptionR :=
  if hasSubscription t p a then t else t ++ [⟨p, a, created_at⟩]

/-- `db::unsubscribe`: `DELETE FROM subscriptions WHERE prof = ? AND assignment_id = ?`. -/
def unsubscribe (t : List SubscriptionR) (p a : String) : List SubscriptionR :=
  t.filter fun r => !(r.prof == p && r.assignment_id == a)

/- ===================== traffic outliers (stats_outliers) ===================== -/

/-- Ascending sort used by `median_i64` / `percentile_i64`
(`sort_unstable`; order of equal elements is irrelevant for both). -/
def sortAsc (v : List Int) : List Int :=
  v.insertionSort (· ≤ ·)

/-- `median_i64`: middle element for odd length, truncated mean of the
two middle elements for even length.  The source indexes the sorted
vector unconditionally and is only reached on non-empty cohorts;
out-of-range access is modelled with a default of 0. -/
def median_i64 (v : List Int) : Int :=
  let s := sortAsc v
  let n := s.length
  if n % 2 == 1 then s.getD (n / 2) 0
  else (s.getD (n / 2 - 1) 0 + s.getD (n / 2) 0).tdiv 2

/-- `percentile_i64(v, 95.0)`: rank = round(0.95 · (len − 1)).  The f64
rounds half away from zero, and the binary value of `95.0 / 100.0`
exceeds the rational 0.95 by less than one ulp, which only nudges exact
halves upward — the same result as rounding half up, computed here
exactly over the integers. -/
def percentile_i64_95 (v : List Int) : Int :=
  if v.isEmpty then 0
  else
    let s := sortAsc v
    s.getD ((19 * (s.length - 1) + 10) / 20) 0

/-- One output row of the outliers fragment.  The f64 display fields
(`pctl`, `rscore`) take no part in flagging, ordering or truncation and
are not modelled (floating point); the driving fields are. -/
structure NetOut where
  student : String
  sub_id : String
  total_net : Int
  over_median : Int
deriving DecidableEq

/-- Cohort input: `(id, student, total_net_events)` per submission. -/
def totalsOf (subs : List (String × String × Int)) : List Int :=
  subs.map fun t => t.2.2

/-- Threshold of `stats_outliers`: `max(med + 3 * mad.max(1), p95)`. -/
def stats_outliers_cut (totals : List Int) : Int :=
  let med := median_i64 totals
  let mad := median_i64 (totals.map fun x => |x - med|)
  max (med + 3 * max mad 1) (percentile_i64_95 totals)

/-- Flagging stage: `.filter(|(_, _, tn)| *tn >= cut)`. -/
def flagged_of (subs : List (String × String × Int)) :
    List (String × String × Int) :=
  subs.filter fun t => stats_outliers_cut (totalsOf subs) ≤ t.2.2

/-- Projection of a flagged submission to its output row. -/
def flaggedOuts (subs : List (String × String × Int)) : List NetOut :=
  (flagged_of subs).map fun t =>
    ⟨t.2.1, t.1, t.2.2, t.2.2 - median_i64 (totalsOf subs)⟩

/-- Output ordering of `stats_outliers`:
`b.over_median.cmp(&a.over_median).then_with(|| b.total_net.cmp(&a.total_net))`,
i.e. descending by `over_median` with a descending `total_net`
tiebreak; `outSortRel a b` says `a` may sort no later than `b`. -/
def outSortRel (a b : NetOut) : Prop :=
  b.over_median < a.over_median ∨
    (b.over_median = a.over_median ∧ b.total_net ≤ a.total_net)

instance : DecidableRel outSortRel := fun a b => by
  unfold outSortRel
  infer_instance

instance : IsTotal NetOut outSortRel :=
  ⟨fun a b => by unfold outSortRel; omega⟩

instance : IsTrans NetOut outSortRel :=
  ⟨fun _ _ _ h1 h2 => by unfold outSortRel at *; omega⟩

/-- Sort-and-truncate stage: stable sort by the comparator, then
`truncate(8)`. -/
def stats_outliers_rows (subs : List (String × String × Int)) : List NetOut :=
  ((flaggedOuts subs).insertionSort outSortRel).take 8

/- ===================== process-timeline ranking ===================== -/

/-- Ranking comparator of `proc_timeline_json`:
`rows_tmp.sort_by(|a, b| a.2.cmp(&b.2))` — ascending by total runtime. -/
def rankRel (a b : String × Int) : Prop := a.2 ≤ b.2

instance : DecidableRel rankRel := fun a b => by
  unfold rankRel
  infer_instance

instance : IsTotal (String × Int) rankRel := ⟨fun a b => le_total a.2 b.2⟩

instance : IsTrans (String × Int) rankRel := ⟨fun _ _ _ h1 h2 => le_trans h1 h2⟩

/-- The `limit` local in `proc_timeline_json`. -/
def timeline_limit : Nat := 500

/-- Rank-and-limit stage of `proc_timeline_json`: stable sort of the
per-comm `(label, total_runtime)` rows by the comparator above, then
`take(limit)`.  (The merged segment list each row also carries takes no
part in the ranking and is left out of the row type here.) -/
def proc_rank_and_limit (rows : List (String × Int)) : List (String × Int) :=
  (rows.insertionSort rankRel).take timeline_limit

/-- A cohort of 501 comms with pairwise-distinct runtimes 0..500. -/
def timelineBigInput : List (String × Int) :=
  (List.range 501).map fun (i : Nat) => ("c" ++ toString i, (i : Int))

/- ===================== time helpers ===================== -/

def NS_PER_SEC : Int := 1000000000

/-- `time::Duration::whole_seconds` — timestamps are nanoseconds, Rust
integer division truncates toward zero. -/
def whole_seconds (d : Int) : Int := d.tdiv NS_PER_SEC

/-- `time::Duration::whole_minutes`. -/
def whole_minutes (d : Int) : Int := d.tdiv (60 * NS_PER_SEC)

/-- `time::Duration::whole_milliseconds`. -/
def whole_milliseconds (d : Int) : Int := d.tdiv 1000000

/-- The merge gap of `proc_timeline_json::merge`:
`time::Duration::seconds(5)`. -/
def GAP_NS : Int := 5 * NS_PER_SEC

/- ===================== process-timeline merge ===================== -/

/-- Sort of `merge`: `ivals.sort_by_key(|x| x.0)` — stable ascending by
interval start. -/
def ivalRel (a b : Int × Int) : Prop := a.1 ≤ b.1

instance : DecidableRel ivalRel := fun a b => by
  unfold ivalRel
  infer_instance

instance : IsTotal (Int × Int) ivalRel := ⟨fun a b => le_total a.1 b.1⟩

instance : IsTrans (Int × Int) ivalRel := ⟨fun _ _ _ h1 h2 => le_trans h1 h2⟩

/-- Loop body of `merge`.  The output vector is accumulated in reverse,
so the source's `out.last_mut()` is the head: an incoming interval
whose start is within `5 s` of the last segment's end extends that
segment (`last.1 = e` only when `e > last.1`, i.e. the new end is the
max), otherwise a new segment is pushed. -/
def mergeGo : List (Int × Int) → List (Int × Int) → List (Int × Int)
  | outRev, [] => outRev
  | outRev, (s, e) :: rest =>
    match outRev with
    | [] => mergeGo [(s, e)] rest
    | (ls, le) :: t =>
      if s ≤ le + GAP_NS then mergeGo ((ls, max le e) :: t) rest
      else mergeGo ((s, e) :: (ls, le) :: t) rest

/-- Concrete interval list for the C8 witness. -/
def mergeWitnessInput : List (Int × Int) :=
  [(0, 1000000000), (10000000000, 20000000000)]

/-- `proc_timeline_json::merge`: sort by start, fold merging gaps ≤ 5 s,
return the merged segments and the summed segment length in
milliseconds (the source accumulates the total incrementally as
segments are finalised; the accumulated value is exactly the sum over
the final segments). -/
def merge (ivals : List (Int × Int)) : List (Int × Int) × Int :=
  let out := (mergeGo [] (ivals.insertionSort ivalRel)).reverse
  (out, (out.map fun p => whole_milliseconds (p.2 - p.1)).sum)

/- ===================== analyze_zip (upload_processing.rs) ===================== -/

/-- One JSONL log line as the analyzer reads it.  A field missing from
the JSON object is represented by the default the source substitutes at
the access site (`unwrap_or`): `""` for `kind`, `ts` and `action`,
`"unknown"` for `comm`, `-1` for `pid`; `dns_qname` and `src_ip` are
only read through `if let Some`, so they stay optional.  Empty lines
and lines that fail JSON parsing are skipped by the source and
contribute nothing, so the embedded log is the list of successfully
parsed lines. -/
structure LogLine where
  kind : String
  ts : String
  action : String
  comm : String
  pid : Int
  dns_qname : Option String
  src_ip : Option String
deriving DecidableEq

/-- Bump a counter (`*map.entry(k).or_default() += 1` on a
`HashMap<String, usize>`); modelled as an association list in
first-insertion order (the `HashMap` iteration order is arbitrary in
the source; every claim settled below is order-independent). -/
def mapBump : List (String × Nat) → String → List (String × Nat)
  | [], k => [(k, 1)]
  | (a, n) :: t, k =>
    if a == k then (a, n + 1) :: t else (a, n) :: mapBump t k

/-- Add to an i64 map entry (`*comm_runtime.entry(c0).or_default() += secs`). -/
def mapAddInt : List (String × Int) → String → Int → List (String × Int)
  | [], k, v => [(k, v)]
  | (a, n) :: t, k, v =>
    if a == k then (a, n + v) :: t else (a, n) :: mapAddInt t k v

/-- Map lookup with default 0 (`map.get(k).copied().unwrap_or(0)`). -/
def mapGetNat (m : List (String × Nat)) (k : String) : Nat :=
  ((m.find? fun p => p.1 == k).map Prod.snd).getD 0

/-- i64 map lookup with default 0. -/
def mapGetInt (m : List (String × Int)) (k : String) : Int :=
  ((m.find? fun p => p.1 == k).map Prod.snd).getD 0

/-- `pid_start: HashMap<i64, (String, OffsetDateTime)>` lookup. -/
def pidLookup (m : List (Int × String × Int)) (p : Int) : Option (String × Int) :=
  (m.find? fun q => q.1 == p).map fun q => (q.2.1, q.2.2)

/-- `HashMap::insert` (replaces an existing entry). -/
def pidInsert : List (Int × String × Int) → Int → String → Int → List (Int × String × Int)
  | [], p, c, t => [(p, c, t)]
  | (q, c0, t0) :: r, p, c, t =>
    if q == p then (p, c, t) :: r else (q, c0, t0) :: pidInsert r p c t

/-- `HashMap::remove` for `pid_start`. -/
def pidRemove (m : List (Int × String × Int)) (p : Int) : List (Int × String × Int) :=
  m.filter fun q => q.1 != p

/-- `HashSet<i64>::insert` for the `orphaned` set. -/
def setInsert (s : List Int) (x : Int) : List Int :=
  if x ∈ s then s else s ++ [x]

/-- `HashSet<i64>::remove`. -/
def setRemove (s : List Int) (x : Int) : List Int :=
  s.filter fun y => y != x

/-- The mutable local state of the `analyze_zip` line loop, one field
per local of the source. -/
structure AState where
  first_ts : Option String
  last_ts : Option String
  ts_prev : Option Int
  max_idle : Int
  event_ts : List Int
  proc_starts : Nat
  proc_stops : Nat
  procs : List (String × Nat)
  had_browser : Bool
  browser_runtime_sec : Int
  shell_count : Nat
  remote_flag : Bool
  ssh_flag : Bool
  download_tool_count : Nat
  pid_start : List (Int × String × Int)
  comm_runtime : List (String × Int)
  orphaned : List Int
  browser_intervals : List (Int × Int)
  shell_intervals : List (Int × Int)
  total_net_events : Nat
  domains : List (String × Nat)
  src_ips : List (String × Nat)
  ai_hits_total : Nat
  ai_domains : List (String × Nat)
  qna_hits : Nat
  code_host_hits : Nat
  search_hits : Nat
  pkg_hits : Nat
  cloud_hits : Nat
deriving DecidableEq

def initAState : AState :=
  ⟨none, none, none, 0, [], 0, 0, [], false, 0, 0, false, false, 0, [], [],
   [], [], [], 0, [], [], 0, [], 0, 0, 0, 0, 0⟩

/-- Timestamp bookkeeping at the top of the loop body: a non-empty `ts`
string updates `first_ts`/`last_ts`; when it also parses, the idle gap,
`ts_prev` and `event_ts` are updated.  `pt` is the RFC 3339 parser
(`parse_rfc3339` wrapping the `time` crate), abstract: it returns the
instant as nanoseconds since the epoch, or `none` on failure. -/
def ts_track (pt : String → Option Int) (st : AState) (l : LogLine) : AState :=
  if l.ts == "" then st
  else
    let st := { st with
      first_ts := if st.first_ts = none then some l.ts else st.first_ts,
      last_ts := some l.ts }
    match pt l.ts with
    | some curr =>
      let upd :=
        match st.ts_prev with
        | some prev =>
          if st.max_idle < whole_seconds (curr - prev) then
            whole_seconds (curr - prev)
          else st.max_idle
        | none => st.max_idle
      { st with
        max_idle := upd,
        ts_prev := some curr,
        event_ts := st.event_ts ++ [curr] }
    | none => st

/-- The `match kind` arm of the loop body (the two string patterns and
the catch-all arm are rendered as an if-chain). -/
def kind_track (pt : String → Option Int) (st : AState) (l : LogLine) : AState :=
  if l.kind == "proc" then
    if l.action == "start" then
      let st := { st with
        proc_starts := st.proc_starts + 1,
        procs := mapBump st.procs l.comm,
        had_browser := st.had_browser || name_is_in l.comm BROWSERS,
        shell_count := st.shell_count + (if name_is_in l.comm SHELLS then 1 else 0),
        remote_flag := st.remote_flag || name_is_in l.comm REMOTE_TOOLS,
        ssh_flag := st.ssh_flag || name_is_in l.comm SSH_LIKE,
        download_tool_count :=
          st.download_tool_count + (if name_is_in l.comm DOWNLOAD_TOOLS then 1 else 0) }
      match pt l.ts with
      | some t =>
        { st with
          pid_start := pidInsert st.pid_start l.pid l.comm t,
          orphaned := setInsert st.orphaned l.pid }
      | none => st
    else if l.action == "stop" then
      let st := { st with
        proc_stops := st.proc_stops + 1,
        orphaned := setRemove st.orphaned l.pid }
      match pidLookup st.pid_start l.pid with
      | some (c0, t0) =>
        let st := { st with pid_start := pidRemove st.pid_start l.pid }
        match pt l.ts with
        | some t1 =>
          let secs := max (whole_seconds (t1 - t0)) 0
          { st with
            comm_runtime := mapAddInt st.comm_runtime c0 secs,
            browser_runtime_sec :=
              st.browser_runtime_sec + (if name_is_in c0 BROWSERS then secs else 0),
            browser_intervals :=
              st.browser_intervals ++ (if name_is_in c0 BROWSERS then [(t0, t1)] else []),
            shell_intervals :=
              st.shell_intervals ++ (if name_is_in c0 SHELLS then [(t0, t1)] else []) }
        | none => st
      | none => st
    else st
  else if l.kind == "net" then
    let st := { st with total_net_events := st.total_net_events + 1 }
    let st :=
      match l.dns_qname with
      | some d =>
        let base := base_domain_guess d
        { st with
          domains := mapBump st.domains d,
          ai_hits_total :=
            st.ai_hits_total + (if AI_PROVIDER_BASES.any (fun s => base == s) then 1 else 0),
          ai_domains :=
            if AI_PROVIDER_BASES.any (fun s => base == s) then mapBump st.ai_domains base
            else st.ai_domains,
          search_hits :=
            st.search_hits + (if SEARCH_BASES.any (fun s => base == s) then 1 else 0),
          qna_hits :=
            st.qna_hits + (if QNA_BASES.any (fun s => base == s) then 1 else 0),
          code_host_hits :=
            st.code_host_hits + (if CODE_HOST_BASES.any (fun s => base == s) then 1 else 0),
          pkg_hits :=
            st.pkg_hits + (if PKG_BASES.any (fun s => base == s) then 1 else 0),
          cloud_hits :=
            st.cloud_hits + (if CLOUD_BASES.any (fun s => base == s) then 1 else 0) }
      | none => st
    match l.src_ip with
    | some ip => { st with src_ips := mapBump st.src_ips ip }
    | none => st
  else st

/-- One iteration of the `analyze_zip` line loop. -/
def analyze_step (pt : String → Option Int) (st : AState) (l : LogLine) : AState :=
  kind_track pt (ts_track pt st l) l

/-- The whole line loop. -/
def analyze_core (pt : String → Option Int) (lines : List LogLine) : AState :=
  lines.foldl (analyze_step pt) initAState

/-- Descending-by-count comparator of the local `top_k` helper
(`v.sort_by(|a, b| b.1.cmp(&a.1))`). -/
def topkRel (a b : String × Nat) : Prop := b.2 ≤ a.2

instance : DecidableRel topkRel := fun a b => by
  unfold topkRel
  infer_instance

instance : IsTotal (String × Nat) topkRel := ⟨fun a b => le_total b.2 a.2⟩

instance : IsTrans (String × Nat) topkRel := ⟨fun _ _ _ h1 h2 => le_trans h2 h1⟩

/-- `top_k`: stable sort descending by count, keep `k` rows. -/
def top_k (m : List (String × Nat)) (k : Nat) : List (String × Nat) :=
  (m.insertionSort topkRel).take k

/-- Minute bucket of a timestamp: `t.unix_timestamp() / 60`. -/
def unixMinute (t : Int) : Int := (t.tdiv NS_PER_SEC).tdiv 60

/-- `burst_max_per_min`: largest event count in any one-minute bucket
(0 when no timestamp was collected).  The source builds a
`HashMap<i64, i64>` of counts and takes the max of its values; taking
the max over each element's bucket count is the same number. -/
def burstMax (ts : List Int) : Int :=
  if ts.isEmpty then 0
  else ((ts.map unixMinute).map fun m => ((ts.map unixMinute).count m : Int)).foldl max 0

/-- `final5_net_events` as computed: both the stored `first_ts` and
`last_ts` strings must re-parse, and then every collected event
timestamp (any kind) within the closed window `[last − 5 min, last]`
is counted. -/
def final5_of (pt : String → Option Int) (st : AState) : Int :=
  match st.first_ts.bind pt, st.last_ts.bind pt with
  | some _, some b =>
    ((st.event_ts.filter fun t =>
      decide (b - 5 * 60 * NS_PER_SEC ≤ t) && decide (t ≤ b)).length : Int)
  | _, _ => 0

/-- Seat IP: `max_by_key` over the private source IPs; Rust's
`max_by_key` returns the last maximal element on ties. -/
def seatIpOpt (src_ips : List (String × Nat)) : Option String :=
  ((src_ips.filter fun p => is_private_ipv4 p.1).foldl
    (fun acc p =>
      match acc with
      | none => some p
      | some q => if q.2 ≤ p.2 then some p else some q)
    none).map Prod.fst

/-- `((ai_hits_total as f64) * 100.0 / dns_total).round() as i64`,
computed exactly over the rationals: round-half-away-from-zero of
`100·ai/dns` for positive values is `⌊(200·ai + dns) / (2·dns)⌋`. -/
def aiRatioPercent (ai dns : Nat) : Nat :=
  (200 * ai + dns) / (2 * dns)

def mkF (kind key v : String) : FindingT := ⟨kind, key, v⟩

/-- The findings assembly of `analyze_zip`, in source order (including
the duplicated `zip_name` push).  `zip_name` is the archive file name.
The f64 comparison `localhost/all_net > 0.8` is the exact rational test
`5·localhost > 4·all_net`. -/
def build_findings (pt : String → Option Int) (zip_name : String) (st : AState) :
    List FindingT :=
  [mkF "net" "qna_hits" (toString st.qna_hits),
   mkF "net" "code_host_hits" (toString st.code_host_hits),
   mkF "net" "search_hits" (toString st.search_hits),
   mkF "net" "pkg_hits" (toString st.pkg_hits),
   mkF "net" "cloud_hits" (toString st.cloud_hits),
   mkF "meta" "zip_name" zip_name,
   mkF "meta" "zip_name" zip_name]
  ++ (match st.first_ts with
      | some ts => [mkF "meta" "first_ts" ts]
      | none => [])
  ++ (match st.last_ts with
      | some ts => [mkF "meta" "last_ts" ts]
      | none => [])
  ++ (match st.first_ts.bind pt, st.last_ts.bind pt with
      | some a, some b =>
        let mins := max (whole_minutes (b - a)) 0
        [mkF "meta" "duration_minutes" (toString mins)]
        ++ (if 0 < mins then
              [mkF "net" "requests_per_min"
                (toString ((st.total_net_events : Int).tdiv (max mins 1)))]
            else [])
      | _, _ => [])
  ++ [mkF "meta" "max_idle_seconds" (toString st.max_idle),
      mkF "proc" "total_proc_starts" (toString st.proc_starts),
      mkF "proc" "total_proc_stops" (toString st.proc_stops)]
  ++ (top_k st.procs 10).map (fun p => mkF "proc" "top_proc" (p.1 ++ ":" ++ toString p.2))
  ++ (if 0 < st.browser_runtime_sec then
        [mkF "proc" "browser_runtime_seconds" (toString st.browser_runtime_sec)]
      else [])
  ++ [mkF "proc" "had_browser" (if st.had_browser then "true" else "false")]
  ++ (if 0 < st.shell_count then
        [mkF "proc" "shell_invocations" (toString st.shell_count)]
      else [])
  ++ (if 0 < st.download_tool_count then
        [mkF "proc" "external_download_tool_count" (toString st.download_tool_count)]
      else [])
  ++ (if st.remote_flag then [mkF "anomaly" "remote_collab_tool_seen" "true"] else [])
  ++ (if st.ssh_flag then [mkF "anomaly" "ssh_activity" "true"] else [])
  ++ [mkF "net" "total_net_events" (toString st.total_net_events),
      mkF "net" "unique_domains" (toString st.domains.length)]
  ++ (top_k st.domains 10).map (fun p => mkF "net" "top_domain" (p.1 ++ ":" ++ toString p.2))
  ++ (top_k st.src_ips 5).map (fun p => mkF "net" "top_src_ip" (p.1 ++ ":" ++ toString p.2))
  ++ (match seatIpOpt st.src_ips with
      | some ip => [mkF "meta" "seat_ip" ip, mkF "meta" "device_key" ip]
      | none => [])
  ++ (if 0 < st.ai_hits_total then
        [mkF "anomaly" "ai_hits_total" (toString st.ai_hits_total)]
        ++ (top_k st.ai_domains 10).map
            (fun p => mkF "net" "ai_domain" (p.1 ++ ":" ++ toString p.2))
        ++ (if 0 < (st.domains.map Prod.snd).sum then
              [mkF "anomaly" "ai_ratio_percent"
                (toString (aiRatioPercent st.ai_hits_total (st.domains.map Prod.snd).sum))]
            else [])
      else [])
  ++ (if 0 < (st.src_ips.map Prod.snd).sum ∧
        4 * (st.src_ips.map Prod.snd).sum < 5 * mapGetNat st.src_ips "127.0.0.1" then
        [mkF "anomaly" "loopback_dominated"
          (toString (mapGetNat st.src_ips "127.0.0.1") ++ "/" ++
            toString (st.src_ips.map Prod.snd).sum)]
      else [])
  ++ [mkF "net" "burst_max_events_per_min" (toString (burstMax st.event_ts)),
      mkF "net" "final5_net_events" (toString (final5_of pt st))]

/-- `analyze_zip`, given the archive file name and the parsed JSONL
lines of `snapshot/palantir.log`. -/
def analyze_zip (pt : String → Option Int) (zip_name : String)
    (lines : List LogLine) : List FindingT :=
  build_findings pt zip_name (analyze_core pt lines)

/-- Toy timestamp parser for concrete runs: `"t0" ↦ 0 s`, `"t1" ↦ 60 s`. -/
def ptToy : String → Option Int := fun s =>
  if s == "t0" then some 0
  else if s == "t1" then some (60 * NS_PER_SEC)
  else none

/-- C1 failing input: one net event at t0, one proc event at t1. -/
def final5Log : List LogLine :=
  [⟨"net", "t0", "", "unknown", -1, none, none⟩,
   ⟨"proc", "t1", "", "unknown", -1, none, none⟩]

/-- C6 failing input: a browser start at t0 that never stops, then a net
event at t1 that fixes `last_ts` 60 seconds later. -/
def orphanLog : List LogLine :=
  [⟨"proc", "t0", "start", "firefox", 7, none, none⟩,
   ⟨"net", "t1", "", "unknown", -1, none, none⟩]

/-- C4 witness input: a single net event, so `first_ts = last_ts`. -/
def singleNetLog : List LogLine :=
  [⟨"net", "t0", "", "unknown", -1, none, none⟩]

/-- C6 witness state: a pending `firefox` start at t = 0 for pid 7. -/
def stopWitnessState : AState :=
  { initAState with pid_start := [(7, "firefox", 0)] }

/-- C6 witness event: the matching stop at t1 = 60 s. -/
def stopWitnessLine : LogLine :=
  ⟨"proc", "t1", "stop", "firefox", 7, none, none⟩

/- ===================== store & upload (api.rs, db.rs) ===================== -/

/-- One row of the `submissions` table. -/
structure SubmissionR where
  id : String
  submission_id : String
  student_name : String
  created_at : String
  moodle_assignment_id : String
  client_version : String
  status : String
deriving DecidableEq

/-- One row of the `logs` (artifact) table. -/
structure LogArtifactR where
  id : String
  submission_ref : String
  fs_path : String
  sha256 : String
  size_bytes : Int
deriving DecidableEq

/-- One row of the `findings` table. -/
structure FindingRowR where
  id : String
  submission_ref : String
  kind : String
  key : String
  value : String
  created_at : String
deriving DecidableEq

/-- The persistent state the claim quantifies over: the three tables and
the upload file system (path ↦ bytes; bytes are opaque `List Nat`). -/
structure Store where
  submissions : List SubmissionR
  logsT : List LogArtifactR
  findingsT : List FindingRowR
  fsFiles : List (String × List Nat)
deriving DecidableEq

/-- Write (create/truncate) a file. -/
def fsWrite (fs : List (String × List Nat)) (p : String) (b : List Nat) :
    List (String × List Nat) :=
  (fs.filter fun q => q.1 != p) ++ [(p, b)]

/-- The query-string metadata of `POST /api/v1/logs` (`LogMeta`). -/
structure LogMeta where
  submission_id : String
  student_name : String
  moodle_assignment_id : Option String
  client_version : Option String
deriving DecidableEq

/-- One multipart field: its form name and the streamed byte chunks. -/
structure MPField where
  name : String
  chunks : List (List Nat)
deriving DecidableEq

/-- On-disk filename of an upload:
`"{now, ':'→'_'}-{submission_id}-{student_name, ' '→'_'}.zip"`. -/
def upload_filename (now submission_id student_name : String) : String :=
  charReplace now ':' '_' ++ "-" ++ submission_id ++ "-" ++
    charReplace student_name ' ' '_' ++ ".zip"

/-- Streaming state of the upload loop: the file system, the bytes fed
so far to the running SHA-256 hasher (never reset between fields), the
byte count, and the last saved path. -/
structure UploadAcc where
  fsFiles : List (String × List Nat)
  hashed : List Nat
  total : Int
  saved_path : Option String
deriving DecidableEq

/-- Handling of one multipart field: a `log_zip` field is streamed to
`dest` (`File::create` truncates, so the file ends up holding exactly
this field's bytes), its bytes are fed to the hasher and counted; any
other field is drained and ignored. -/
def upload_field_step (dest : String) (acc : UploadAcc) (f : MPField) : UploadAcc :=
  if f.name == "log_zip" then
    ⟨fsWrite acc.fsFiles dest f.chunks.flatten,
     acc.hashed ++ f.chunks.flatten,
     acc.total + ((f.chunks.map List.length).sum : Int),
     some dest⟩
  else acc

/-- Destination path of an upload (`data.upload_dir.join(filename)`). -/
def upload_dest (upload_dir : String) (meta : LogMeta) (now : String) : String :=
  upload_dir ++ "/" ++ upload_filename now meta.submission_id meta.student_name

/-- The streaming loop over the multipart fields. -/
def upload_acc (upload_dir : String) (meta : LogMeta) (now : String)
    (fields : List MPField) (st : Store) : UploadAcc :=
  fields.foldl (upload_field_step (upload_dest upload_dir meta now))
    ⟨st.fsFiles, [], 0, none⟩

/-- `upload_logs`: create the submission row (status `received`), stream
the multipart payload, then insert the artifact row if a `log_zip` field
was saved.  `H` is SHA-256 (the external `sha2` crate), abstract; `su`
and `au` are the freshly generated UUIDs; `now` the formatted request
time. -/
def upload_logs (H : List Nat → String) (upload_dir : String) (meta : LogMeta)
    (now su au : String) (fields : List MPField) (st : Store) : Store :=
  { submissions := st.submissions ++
      [⟨su, meta.submission_id, meta.student_name, now,
        meta.moodle_assignment_id.getD "", meta.client_version.getD "client",
        "received"⟩],
    logsT :=
      match (upload_acc upload_dir meta now fields st).saved_path with
      | some p => st.logsT ++
          [⟨au, su, p, H (upload_acc upload_dir meta now fields st).hashed,
            (upload_acc upload_dir meta now fields st).total⟩]
      | none => st.logsT,
    findingsT := st.findingsT,
    fsFiles := (upload_acc upload_dir meta now fields st).fsFiles }

/-- File-name component of a path (`Path::file_name`), used by the move
to the processed directory. -/
def fileNameOf (p : String) : String :=
  match (splitChar '/' p.data).reverse with
  | last :: _ => String.mk last
  | [] => ""

/-- First transaction of `process_pending`: mark a submission
`processing`. -/
def mark_processing (sid : String) (st : Store) : Store :=
  { st with
    submissions := st.submissions.map fun s =>
      if s.id == sid then { s with status := "processing" } else s }

/-- Second transaction of `process_pending`: insert the findings and
flip the status to `processed`. -/
def commit_findings (sid : String) (fs : List FindingRowR) (st : Store) : Store :=
  { st with
    findingsT := st.findingsT ++ fs,
    submissions := st.submissions.map fun s =>
      if s.id == sid then { s with status := "processed" } else s }

/-- Final side effect of `process_pending`: `fs::rename` the archive
from the upload directory into the processed directory (the artifact
row keeps its original `fs_path`). -/
def move_processed (processed_dir src : String) (st : Store) : Store :=
  match (st.fsFiles.find? fun q => q.1 == src).map Prod.snd with
  | some bytes =>
    let moved := fsWrite (st.fsFiles.filter fun q => q.1 != src)
      (processed_dir ++ "/" ++ fileNameOf src) bytes
    { st with fsFiles := moved }
  | none => st

/-- The operations that touch the store after boot.  An upload's two
UUIDs are fresh — `id` is `TEXT PRIMARY KEY` in both tables, so a
duplicate insert would error the handler.  The analyzer steps may
target any submission at any time; the artifact invariant below is
scheduling-independent. -/
inductive StoreStep (H : List Nat → String) (upload_dir processed_dir : String) :
    Store → Store → Prop
  | upload (meta : LogMeta) (now su au : String) (fields : List MPField)
      (st : Store)
      (hsu : ∀ s ∈ st.submissions, s.id ≠ su)
      (hau : ∀ l ∈ st.logsT, l.id ≠ au) :
      StoreStep H upload_dir processed_dir st
        (upload_logs H upload_dir meta now su au fields st)
  | mark (sid : String) (st : Store) :
      StoreStep H upload_dir processed_dir st (mark_processing sid st)
  | commit (sid : String) (fs : List FindingRowR) (st : Store) :
      StoreStep H upload_dir processed_dir st (commit_findings sid fs st)
  | move (src : String) (st : Store) :
      StoreStep H upload_dir processed_dir st
        (move_processed processed_dir src st)

/-- Reachability by any number of store operations. -/
def StoreReach (H : List Nat → String) (upload_dir processed_dir : String) :
    Store → Store → Prop :=
  Relation.ReflTransGen (StoreStep H upload_dir processed_dir)

/-- Multipart payload for the C9 witness: one `log_zip` field. -/
def uploadWitnessFields : List MPField := [⟨"log_zip", [[1, 2], [3]]⟩]

/-- The C9 witness store: the upload applied to the empty store. -/
def uploadWitnessStore : Store :=
  upload_logs (fun _ => "h") "up" ⟨"a1", "alice", none, none⟩ "now" "su1"
    "au1" uploadWitnessFields ⟨[], [], [], []⟩

/- ===================== theorems ===================== -/

/-- Invariants of the merge loop: assuming the pending intervals are
sorted by start, all intervals well-formed, and the accumulated
reversed output well-formed, gap-separated and started no later than
any pending interval, the final output is well-formed and
gap-separated. -/
theorem mergeGo_invariant (rest : List (Int × Int)) :
    ∀ outRev,
      List.Sorted ivalRel rest →
      (∀ p ∈ rest, p.1 ≤ p.2) →
      (∀ p ∈ outRev, p.1 ≤ p.2) →
      List.Pairwise (fun a b => b.2 + GAP_NS < a.1) outRev →
      (∀ q ∈ rest, ∀ p ∈ outRev, p.1 ≤ q.1) →
      (∀ p ∈ mergeGo outRev rest, p.1 ≤ p.2) ∧
      List.Pairwise (fun a b => b.2 + GAP_NS < a.1) (mergeGo outRev rest) := by
  induction rest with
  | nil =>
    intro outRev _ _ hwfo hpw _
    rw [show mergeGo outRev [] = outRev from rfl]
    exact ⟨hwfo, hpw⟩
  | cons hd rest ih =>
    obtain ⟨s, e⟩ := hd
    intro outRev hsort hwfr hwfo hpw hord
    have hsort' : List.Sorted ivalRel rest := hsort.of_cons
    have hse : s ≤ e := hwfr _ (List.mem_cons_self _ _)
    have hwfr' : ∀ p ∈ rest, p.1 ≤ p.2 := fun p hp =>
      hwfr p (List.mem_cons_of_mem _ hp)
    have hrest_ge : ∀ q ∈ rest, s ≤ q.1 := fun q hq =>
      List.rel_of_sorted_cons hsort q hq
    match outRev with
    | [] =>
      rw [show mergeGo [] ((s, e) :: rest) = mergeGo [(s, e)] rest from rfl]
      refine ih [(s, e)] hsort' hwfr' ?_ ?_ ?_
      · intro p hp
        rw [List.mem_singleton] at hp
        subst hp
        exact hse
      · exact List.pairwise_singleton _ _
      · intro q hq p hp
        rw [List.mem_singleton] at hp
        subst hp
        exact hrest_ge q hq
    | (ls, le) :: t =>
      have hwf_head : ls ≤ le := hwfo _ (List.mem_cons_self _ _)
      rw [List.pairwise_cons] at hpw
      by_cases hc : s ≤ le + GAP_NS
      · rw [show mergeGo ((ls, le) :: t) ((s, e) :: rest) =
            mergeGo ((ls, max le e) :: t) rest from by simp [mergeGo, hc]]
        refine ih _ hsort' hwfr' ?_ ?_ ?_
        · intro p hp
          rcases List.mem_cons.mp hp with h | h
          · subst h
            exact le_trans hwf_head (le_max_left _ _)
          · exact hwfo p (List.mem_cons_of_mem _ h)
        · rw [List.pairwise_cons]
          exact ⟨fun b hb => hpw.1 b hb, hpw.2⟩
        · intro q hq p hp
          rcases List.mem_cons.mp hp with h | h
          · have hls : ls ≤ q.1 :=
              hord q (List.mem_cons_of_mem _ hq) (ls, le) (List.mem_cons_self _ _)
            subst h
            exact hls
          · exact hord q (List.mem_cons_of_mem _ hq) p (List.mem_cons_of_mem _ h)
      · rw [show mergeGo ((ls, le) :: t) ((s, e) :: rest) =
            mergeGo ((s, e) :: (ls, le) :: t) rest from by simp [mergeGo, hc]]
        push_neg at hc
        have hgap : GAP_NS = 5000000000 := by norm_num [GAP_NS, NS_PER_SEC]
        refine ih _ hsort' hwfr' ?_ ?_ ?_
        · intro p hp
          rcases List.mem_cons.mp hp with h | h
          · subst h
            exact hse
          · exact hwfo p h
        · rw [List.pairwise_cons]
          refine ⟨fun b hb => ?_, by rw [List.pairwise_cons]; exact hpw⟩
          rcases List.mem_cons.mp hb with h | h
          · subst h
            omega
          · have hb2 : b.2 + GAP_NS < ls := hpw.1 b h
            omega
        · intro q hq p hp
          rcases List.mem_cons.mp hp with h | h
          · subst h
            exact hrest_ge q hq
          · exact hord q (List.mem_cons_of_mem _ hq) p h

/-- C8: for well-formed input intervals (start ≤ end, which holds for
the interval lists `proc_timeline_json` builds from a log whose `proc`
timestamps are non-decreasing, dangling starts being clipped at the
global maximum), any two distinct merged segments `s1`, `s2` of a comm
with `s1.end ≤ s2.start` are separated by strictly more than 5 seconds. -/
theorem merged_segments_gap (ivals : List (Int × Int))
    (hwf : ∀ p ∈ ivals, p.1 ≤ p.2) :
    ∀ s1 ∈ (merge ivals).1, ∀ s2 ∈ (merge ivals).1, s1 ≠ s2 → s1.2 ≤ s2.1 →
      GAP_NS < s2.1 - s1.2 := by
  intro s1 h1 s2 h2 hne hle
  obtain ⟨hwfo, hpw⟩ := mergeGo_invariant (ivals.insertionSort ivalRel) []
    (List.sorted_insertionSort _ _)
    (fun p hp => hwf p ((List.mem_insertionSort _).mp hp))
    (by simp) (by simp) (by simp)
  have hfwd : List.Pairwise (fun a b => a.2 + GAP_NS < b.1) (merge ivals).1 := by
    have h := (List.pairwise_reverse).mpr hpw
    simpa [merge] using h
  have hwf' : ∀ p ∈ (merge ivals).1, p.1 ≤ p.2 := by
    intro p hp
    refine hwfo p ?_
    rw [show (merge ivals).1 = (mergeGo [] (ivals.insertionSort ivalRel)).reverse
      from rfl, List.mem_reverse] at hp
    exact hp
  have hgap : GAP_NS = 5000000000 := by norm_num [GAP_NS, NS_PER_SEC]
  have hsym : List.Pairwise
      (fun a b : Int × Int =>
        (a.2 ≤ b.1 → GAP_NS < b.1 - a.2) ∧ (b.2 ≤ a.1 → GAP_NS < a.1 - b.2))
      (merge ivals).1 := by
    refine hfwd.imp_of_mem ?_
    intro a b ha hb hab
    refine ⟨fun _ => by omega, fun hba => ?_⟩
    exfalso
    have hwa := hwf' a ha
    have hwb := hwf' b hb
    omega
  have hr := List.Pairwise.forall
    (fun a b h => ⟨h.2, h.1⟩) hsym h1 h2 hne
  exact hr.1 hle

/-- C8 witness: two intervals 9 seconds apart stay separate segments and
satisfy the gap bound. -/
theorem merged_segments_gap_witness :
    ((0 : Int), (1000000000 : Int)) ∈ (merge mergeWitnessInput).1 ∧
    GAP_NS < (10000000000 : Int) - 1000000000 :=
  ⟨by decide,
   merged_segments_gap mergeWitnessInput (by decide) (0, 1000000000) (by decide)
     (10000000000, 20000000000) (by decide) (by decide) (by decide)⟩

/-- C10: subscribing is idempotent and non-erroring on duplicates: a
subscribe on an existing `(prof, assignment_id)` pair leaves the table
unchanged, subscribe ∘ subscribe = subscribe, and a subsequent
unsubscribe removes the single inserted row. -/
theorem subscribe_idempotent (t : List SubscriptionR) (p a c c' : String) :
    (hasSubscription t p a = true → subscribe t p a c = t) ∧
    subscribe (subscribe t p a c) p a c' = subscribe t p a c ∧
    (hasSubscription t p a = false → unsubscribe (subscribe t p a c) p a = t) := by
  refine ⟨fun h => by simp [subscribe, h], ?_, fun h => ?_⟩
  · by_cases h : hasSubscription t p a
    · simp [subscribe, h]
    · have h2 : hasSubscription (t ++ [⟨p, a, c⟩]) p a = true := by
        simp [hasSubscription]
      simp [subscribe, h, h2]
  · have hall : ∀ r ∈ t, (r.prof == p && r.assignment_id == a) = false := by
      intro r hr
      by_contra hc
      have hc' : (r.prof == p && r.assignment_id == a) = true := by
        revert hc; cases (r.prof == p && r.assignment_id == a) <;> simp
      have ht : hasSubscription t p a = true := List.any_eq_true.mpr ⟨r, hr, hc'⟩
      rw [h] at ht
      exact Bool.false_ne_true ht
    have hns : subscribe t p a c = t ++ [⟨p, a, c⟩] := by
      simp [subscribe, h]
    rw [hns, unsubscribe, List.filter_append]
    have h1 : List.filter (fun r => !(r.prof == p && r.assignment_id == a)) t = t := by
      apply List.filter_eq_self.mpr
      intro r hr
      rw [hall r hr]
      rfl
    rw [h1]
    simp

/-- C2 counterexample: on a numeric key, `exists` compiles to
`EXISTS (... AND f.value GLOB '[0-9]*')`, so a submission that does have
a finding with that key is not matched when the value does not start
with a digit — refuting "matches iff at least one finding row with that
key, regardless of the finding's value"; and a numeric comparison
matches the non-digit-string value `"12abc"` (the GLOB only pins the
first character and SQLite's CAST compares the digit prefix 12) —
refuting "matches only finding rows whose value is a digit-string". -/
theorem exists_on_numeric_key_ignores_nondigit :
    filterClauseHolds [⟨"net", "total_net_events", "abc"⟩]
        ⟨"total_net_events", "exists", none⟩ = false ∧
    (⟨"net", "total_net_events", "abc"⟩ : FindingT) ∈
        [(⟨"net", "total_net_events", "abc"⟩ : FindingT)] ∧
    (⟨"net", "total_net_events", "abc"⟩ : FindingT).key = "total_net_events" ∧
    filterClauseHolds [⟨"net", "total_net_events", "12abc"⟩]
        ⟨"total_net_events", "gt", some "5"⟩ = true := by
  refine ⟨by decide, by decide, rfl, by decide⟩

/-- C2 (amended): semantics of one compiled filter clause against the
finding rows of a submission.  `exists` on a boolean key tests pure
presence; `exists` on a numeric key additionally requires the value to
start with a decimal digit (the `GLOB '[0-9]*'` guard); a numeric
comparison op matches iff some finding row has the key, a value starting
with a digit, and SQLite's integer cast of the value satisfies the
comparison (values with trailing garbage after the digits still match
via their digit prefix). -/
theorem filter_clause_semantics (rows : List FindingT) (f : FilterItem) :
    (f.key ∈ ALLOWED_KEYS_BOOL → f.op = "exists" →
      (filterClauseHolds rows f = true ↔ ∃ r ∈ rows, r.key = f.key)) ∧
    (f.key ∈ ALLOWED_KEYS_NUM → f.op = "exists" →
      (filterClauseHolds rows f = true ↔
        ∃ r ∈ rows, r.key = f.key ∧ globDigitStar r.value = true)) ∧
    (f.key ∈ ALLOWED_KEYS_NUM → f.op ∈ ["gt", "ge", "eq", "le", "lt", "ne"] →
      (filterClauseHolds rows f = true ↔
        ∃ r ∈ rows, r.key = f.key ∧ globDigitStar r.value = true ∧
          intCmp f.op (sqliteCastInt r.value) (filterVal f.val) = true)) := by
  refine ⟨fun hb hop => ?_, fun hn hop => ?_, fun hn hop => ?_⟩
  · have hnn : f.key ∉ ALLOWED_KEYS_NUM := by
      simp only [ALLOWED_KEYS_BOOL, List.mem_cons, List.not_mem_nil,
        or_false, List.mem_singleton] at hb
      rcases hb with h | h | h <;> rw [h] <;> decide
    have h1 : ¬ (f.op ∉ ALLOWED_OPS) := by rw [hop]; decide
    unfold filterClauseHolds
    rw [if_neg h1, if_neg hnn, if_pos hb, hop]
    simp [List.any_eq_true]
  · have h1 : ¬ (f.op ∉ ALLOWED_OPS) := by rw [hop]; decide
    unfold filterClauseHolds
    rw [if_neg h1, if_pos hn, hop]
    simp [List.any_eq_true]
  · have hops : f.op ∈ ALLOWED_OPS ∧ (f.op == "exists") = false := by
      simp only [List.mem_cons, List.not_mem_nil, or_false,
        List.mem_singleton] at hop
      rcases hop with h | h | h | h | h | h <;> rw [h] <;>
        exact ⟨by decide, by decide⟩
    have h1 : ¬ (f.op ∉ ALLOWED_OPS) := fun hc => hc hops.1
    unfold filterClauseHolds
    rw [if_neg h1, if_pos hn, hops.2]
    simp [List.any_eq_true, and_assoc]

/-- C2 witness: a boolean-key `exists` filter matches a submission whose
`had_browser` finding carries an arbitrary value. -/
theorem filter_clause_semantics_witness :
    filterClauseHolds [⟨"proc", "had_browser", "whatever"⟩]
        ⟨"had_browser", "exists", none⟩ = true :=
  ((filter_clause_semantics [⟨"proc", "had_browser", "whatever"⟩]
      ⟨"had_browser", "exists", none⟩).1 (by decide) rfl).mpr
    ⟨⟨"proc", "had_browser", "whatever"⟩, by decide, rfl⟩

/-- C3: for every non-empty cohort the outlier threshold T dominates
both P95 and `median + 3·max(MAD, 1)`; a submission is flagged iff its
value is ≥ T; and the output is the flagged rows sorted descending by
`value − median` and truncated to at most 8. -/
theorem stats_outliers_spec (subs : List (String × String × Int))
    (hne : subs ≠ []) :
    percentile_i64_95 (totalsOf subs) ≤ stats_outliers_cut (totalsOf subs) ∧
    median_i64 (totalsOf subs) +
        3 * max (median_i64 ((totalsOf subs).map
          fun x => |x - median_i64 (totalsOf subs)|)) 1 ≤
      stats_outliers_cut (totalsOf subs) ∧
    (∀ t, t ∈ flagged_of subs ↔
      t ∈ subs ∧ stats_outliers_cut (totalsOf subs) ≤ t.2.2) ∧
    (stats_outliers_rows subs).length = min 8 (flaggedOuts subs).length ∧
    List.Sorted (fun x y : NetOut => y.over_median ≤ x.over_median)
      (stats_outliers_rows subs) ∧
    (∀ x ∈ stats_outliers_rows subs, x ∈ flaggedOuts subs) := by
  refine ⟨?_, ?_, fun t => ?_, ?_, ?_, fun x hx => ?_⟩
  · exact le_max_right _ _
  · exact le_max_left _ _
  · simp [flagged_of, List.mem_filter]
  · simp [stats_outliers_rows, List.length_take, List.length_insertionSort]
  · have hs : List.Sorted outSortRel
        ((flaggedOuts subs).insertionSort outSortRel) :=
      List.sorted_insertionSort outSortRel _
    have hw : List.Sorted (fun x y : NetOut => y.over_median ≤ x.over_median)
        ((flaggedOuts subs).insertionSort outSortRel) := by
      refine hs.imp ?_
      intro a b hab
      rcases hab with h | ⟨h, _⟩
      · exact le_of_lt h
      · exact le_of_eq h
    exact hw.sublist (List.take_sublist _ _)
  · exact (List.mem_insertionSort outSortRel).mp (List.mem_of_mem_take hx)

/-- C3 witness: singleton cohort, evaluated. -/
theorem stats_outliers_spec_witness :
    (stats_outliers_rows [("id1", "al", 5)]).length =
        min 8 (flaggedOuts [("id1", "al", 5)]).length ∧
    percentile_i64_95 (totalsOf [("id1", "al", 5)]) ≤
        stats_outliers_cut (totalsOf [("id1", "al", 5)]) :=
  ⟨(stats_outliers_spec [("id1", "al", 5)] (by decide)).2.2.2.1,
   (stats_outliers_spec [("id1", "al", 5)] (by decide)).1⟩

/-- C7: evaluation of the rank-and-limit stage on 501 comms with
runtimes 0..500: the row with the largest total runtime is in the
input but not among the 500 returned rows — the code keeps the 500
smallest runtimes, not the top 500. -/
theorem rank_drops_largest_runtime :
    ("c500", (500 : Int)) ∈ timelineBigInput ∧
    (∀ p ∈ timelineBigInput, p.2 ≤ 500) ∧
    ("c500", (500 : Int)) ∉ proc_rank_and_limit timelineBigInput := by
  refine ⟨?_, fun p hp => ?_, ?_⟩
  · unfold timelineBigInput
    refine List.mem_map.mpr ⟨500, ?_, by decide⟩
    rw [List.mem_range]
    omega
  · unfold timelineBigInput at hp
    rcases List.mem_map.mp hp with ⟨i, hi, rfl⟩
    rw [List.mem_range] at hi
    show (i : Int) ≤ 500
    omega
  · have hsorted : List.Sorted rankRel timelineBigInput := by
      unfold timelineBigInput
      rw [List.Sorted, List.pairwise_map]
      refine (List.pairwise_lt_range 501).imp ?_
      intro a b h
      show (a : Int) ≤ (b : Int)
      omega
    rw [proc_rank_and_limit, hsorted.insertionSort_eq]
    unfold timelineBigInput timeline_limit
    rw [← List.map_take, List.take_range]
    intro hmem
    rcases List.mem_map.mp hmem with ⟨i, hi, heq⟩
    rw [List.mem_range] at hi
    have h500 : (i : Int) = 500 := congrArg Prod.snd heq
    have hieq : i = 500 := by exact_mod_cast h500
    omega

/-- C1: at this archive the emitted `final5_net_events` value is 2,
although only one of the two in-window events (both with parseable
timestamps) is of kind `net`: the counter counts every event with a
parseable timestamp, `proc` events included, contradicting the claim
(and the key's own description, "number of network events in final 5
minutes"). -/
theorem final5_counts_proc_events :
    valuesOfKey (analyze_zip ptToy "a.zip" final5Log) "final5_net_events" = ["2"] ∧
    (final5Log.filter fun l => l.kind == "net").length = 1 ∧
    (((final5Log.filter fun l => l.kind == "net").filterMap fun l => ptToy l.ts).filter
        fun t => decide (60 * NS_PER_SEC - 5 * 60 * NS_PER_SEC ≤ t) &&
          decide (t ≤ 60 * NS_PER_SEC)).length = 1 := by
  refine ⟨by decide, by decide, by decide⟩

/-- C5: even the empty archive yields two `zip_name` findings — the
source pushes the `zip_name` finding twice — refuting "exactly one
finding with key `zip_name` is produced per submission". -/
theorem zip_name_emitted_twice :
    countKey (analyze_zip ptToy "a.zip" []) "zip_name" = 2 := by
  decide

/-- C6 counterexample: the browser start at t0 never stops; `last_ts`
parses to 60 s, so the claim mandates clipping the interval at
`last_ts` and accumulating 60 s of (browser) runtime; but the analyzer
accumulates nothing: the runtime map stays empty, `browser_runtime_sec`
stays 0 (so no `browser_runtime_seconds` finding is emitted), and the
start stays pending in `pid_start`. -/
theorem orphan_start_not_accumulated :
    (analyze_core ptToy orphanLog).browser_runtime_sec = 0 ∧
    (analyze_core ptToy orphanLog).browser_runtime_sec ≠ 60 ∧
    (analyze_core ptToy orphanLog).comm_runtime = [] ∧
    (analyze_core ptToy orphanLog).pid_start = [(7, "firefox", 0)] ∧
    (analyze_core ptToy orphanLog).last_ts.bind ptToy = some (60 * NS_PER_SEC) ∧
    countKey (analyze_zip ptToy "a.zip" orphanLog) "browser_runtime_seconds" = 0 := by
  refine ⟨by decide, by decide, by decide, by decide, by decide, by decide⟩

/-- The timestamp bookkeeping never touches the process-runtime fields. -/
theorem ts_track_preserves (pt : String → Option Int) (st : AState) (l : LogLine) :
    (ts_track pt st l).pid_start = st.pid_start ∧
    (ts_track pt st l).comm_runtime = st.comm_runtime ∧
    (ts_track pt st l).browser_runtime_sec = st.browser_runtime_sec := by
  unfold ts_track
  by_cases h : (l.ts == "") = true
  · rw [if_pos h]
    exact ⟨rfl, rfl, rfl⟩
  · rw [if_neg h]
    cases hpt : pt l.ts with
    | some curr => exact ⟨rfl, rfl, rfl⟩
    | none => exact ⟨rfl, rfl, rfl⟩

/-- Adding to an entry of the runtime map adds to its looked-up value. -/
theorem mapGetInt_mapAddInt (m : List (String × Int)) (k : String) (v : Int) :
    mapGetInt (mapAddInt m k v) k = mapGetInt m k + v := by
  induction m with
  | nil => simp [mapAddInt, mapGetInt, List.find?]
  | cons x xs ih =>
    obtain ⟨a, n⟩ := x
    by_cases h : (a == k) = true
    · simp only [mapAddInt, h, if_true, mapGetInt]
      rw [List.find?_cons_of_pos _ (by simpa using h),
          List.find?_cons_of_pos _ (by simpa using h)]
      simp
    · have h' : (a == k) = false := by
        revert h
        cases (a == k) <;> simp
      simp only [mapAddInt, h', Bool.false_eq_true, if_false, mapGetInt]
      rw [List.find?_cons_of_neg _ (by simpa using h'),
          List.find?_cons_of_neg _ (by simpa using h')]
      exact ih

/-- C6 (amended): a `stop` whose pid has a pending start accumulates
`max(0, stop − start)` seconds into that comm's runtime and, for
browser comms, into the browser runtime total; a trailing start with no
matching stop leaves both runtime totals untouched (the analyzer only
logs such orphans — there is no clipping at `last_ts`). -/
theorem runtime_accumulation (pt : String → Option Int) (st : AState)
    (l : LogLine) (c0 : String) (t0 t1 : Int)
    (hk : l.kind = "proc") (ha : l.action = "stop")
    (hpid : pidLookup st.pid_start l.pid = some (c0, t0))
    (hts : pt l.ts = some t1) :
    (mapGetInt (analyze_step pt st l).comm_runtime c0 =
        mapGetInt st.comm_runtime c0 + max (whole_seconds (t1 - t0)) 0 ∧
      (analyze_step pt st l).browser_runtime_sec =
        st.browser_runtime_sec +
          (if name_is_in c0 BROWSERS then max (whole_seconds (t1 - t0)) 0 else 0)) ∧
    ∀ (lines : List LogLine) (l' : LogLine),
      l'.kind = "proc" → l'.action = "start" →
      (analyze_core pt (lines ++ [l'])).comm_runtime =
          (analyze_core pt lines).comm_runtime ∧
        (analyze_core pt (lines ++ [l'])).browser_runtime_sec =
          (analyze_core pt lines).browser_runtime_sec := by
  constructor
  · obtain ⟨hp, hc, hb⟩ := ts_track_preserves pt st l
    unfold analyze_step kind_track
    rw [hk, ha, hp]
    simp only [beq_self_eq_true, if_true, hpid]
    rw [show (("stop" : String) == "start") = false from rfl]
    simp only [Bool.false_eq_true, if_false, beq_self_eq_true, if_true, hts]
    constructor
    · rw [mapGetInt_mapAddInt, hc]
    · rw [hb]
  · intro lines l' hk' ha'
    have hstep : analyze_core pt (lines ++ [l']) =
        analyze_step pt (analyze_core pt lines) l' := by
      unfold analyze_core
      rw [List.foldl_append]
      rfl
    obtain ⟨hp', hc', hb'⟩ := ts_track_preserves pt (analyze_core pt lines) l'
    rw [hstep]
    unfold analyze_step kind_track
    rw [hk', ha']
    simp only [beq_self_eq_true, if_true]
    cases hpt : pt l'.ts with
    | some t => exact ⟨hc', hb'⟩
    | none => exact ⟨hc', hb'⟩

/-- C6 witness: a matched start/stop pair for `firefox` accumulates the
60-second interval. -/
theorem runtime_accumulation_witness :
    mapGetInt (analyze_step ptToy stopWitnessState stopWitnessLine).comm_runtime
        "firefox" =
      mapGetInt stopWitnessState.comm_runtime "firefox" +
        max (whole_seconds (60 * NS_PER_SEC - 0)) 0 :=
  ((runtime_accumulation ptToy stopWitnessState stopWitnessLine "firefox" 0
      (60 * NS_PER_SEC) rfl rfl (by decide) (by decide)).1).1

theorem valuesOfKey_append (a b : List FindingT) (k : String) :
    valuesOfKey (a ++ b) k = valuesOfKey a k ++ valuesOfKey b k := by
  simp [valuesOfKey, List.filterMap_append]

theorem valuesOfKey_nil (k : String) : valuesOfKey [] k = [] := rfl

theorem valuesOfKey_cons (f : FindingT) (r : List FindingT) (k : String) :
    valuesOfKey (f :: r) k =
      (if f.key == k then [f.value] else []) ++ valuesOfKey r k := by
  by_cases h : f.key = k
  · simp [valuesOfKey, List.filterMap_cons, h]
  · simp [valuesOfKey, List.filterMap_cons, h]

theorem valuesOfKey_map {α : Type} (kd ky k : String) (f : α → String)
    (l : List α) :
    valuesOfKey (l.map fun p => (⟨kd, ky, f p⟩ : FindingT)) k =
      if ky == k then l.map f else [] := by
  induction l with
  | nil => simp [valuesOfKey_nil]
  | cons x xs ih =>
    rw [List.map_cons, valuesOfKey_cons, ih]
    by_cases h : ky = k
    · simp [h]
    · simp [h]

theorem valuesOfKey_ite (c : Prop) [Decidable c] (A B : List FindingT)
    (k : String) :
    valuesOfKey (if c then A else B) k =
      if c then valuesOfKey A k else valuesOfKey B k := by
  split <;> rfl

/-- C4: when both boundary timestamps re-parse, every emitted
`requests_per_min` value equals `total_net_events ÷ max(duration_minutes, 1)`
(integer division, `duration_minutes = max(whole_minutes(last − first), 0)`),
and when the boundaries coincide the `duration_minutes` finding is `"0"`
while `requests_per_min` is omitted instead of emitted. -/
theorem requests_per_min_spec (pt : String → Option Int) (zn : String)
    (lines : List LogLine) (a b : Int)
    (hfa : (analyze_core pt lines).first_ts.bind pt = some a)
    (hfb : (analyze_core pt lines).last_ts.bind pt = some b) :
    (∀ v ∈ valuesOfKey (analyze_zip pt zn lines) "requests_per_min",
      v = toString (((analyze_core pt lines).total_net_events : Int).tdiv
        (max (max (whole_minutes (b - a)) 0) 1))) ∧
    (a = b →
      valuesOfKey (analyze_zip pt zn lines) "duration_minutes" = ["0"] ∧
      valuesOfKey (analyze_zip pt zn lines) "requests_per_min" = []) := by
  set st := analyze_core pt lines with hst
  obtain ⟨s1, hs1, hp1⟩ : ∃ s, st.first_ts = some s ∧ pt s = some a := by
    cases hft : st.first_ts with
    | none => rw [hft] at hfa; simp at hfa
    | some s =>
      rw [hft] at hfa
      exact ⟨s, rfl, by simpa using hfa⟩
  obtain ⟨s2, hs2, hp2⟩ : ∃ s, st.last_ts = some s ∧ pt s = some b := by
    cases hlt : st.last_ts with
    | none => rw [hlt] at hfb; simp at hfb
    | some s =>
      rw [hlt] at hfb
      exact ⟨s, rfl, by simpa using hfb⟩
  have hrpm : valuesOfKey (analyze_zip pt zn lines) "requests_per_min" =
      (if 0 < max (whole_minutes (b - a)) 0 then
        [toString ((st.total_net_events : Int).tdiv
          (max (max (whole_minutes (b - a)) 0) 1))]
      else []) := by
    show valuesOfKey (build_findings pt zn st) "requests_per_min" = _
    unfold build_findings
    rw [hfa, hfb, hs1, hs2]
    cases hseat : seatIpOpt st.src_ips <;>
      simp [valuesOfKey_append, valuesOfKey_cons, valuesOfKey_nil,
        valuesOfKey_map, valuesOfKey_ite, mkF]
  have hdur : valuesOfKey (analyze_zip pt zn lines) "duration_minutes" =
      [toString (max (whole_minutes (b - a)) 0)] := by
    show valuesOfKey (build_findings pt zn st) "duration_minutes" = _
    unfold build_findings
    rw [hfa, hfb, hs1, hs2]
    cases hseat : seatIpOpt st.src_ips <;>
      simp [valuesOfKey_append, valuesOfKey_cons, valuesOfKey_nil,
        valuesOfKey_map, valuesOfKey_ite, mkF]
  refine ⟨?_, ?_⟩
  · intro v hv
    rw [hrpm] at hv
    by_cases hm : 0 < max (whole_minutes (b - a)) 0
    · rw [if_pos hm] at hv
      simpa using hv
    · rw [if_neg hm] at hv
      simp at hv
  · intro hab
    subst hab
    have hzero : max (whole_minutes (a - a)) 0 = 0 := by
      simp [whole_minutes]
    constructor
    · rw [hdur, hzero]
      decide
    · rw [hrpm, hzero]
      simp

/-- C4 witness: a log with a single net event, so `first_ts = last_ts`
parse to the same instant — duration 0 is emitted and the rate finding
is omitted. -/
theorem requests_per_min_spec_witness :
    valuesOfKey (analyze_zip ptToy "a.zip" singleNetLog) "duration_minutes" =
        ["0"] ∧
    valuesOfKey (analyze_zip ptToy "a.zip" singleNetLog) "requests_per_min" =
        [] :=
  (requests_per_min_spec ptToy "a.zip" singleNetLog 0 0 (by decide)
    (by decide)).2 rfl

/-- Characterisation of the multipart streaming loop: the hasher sees
the concatenation of all `log_zip` fields' bytes, the byte count adds
their lengths, and a path is saved iff at least one `log_zip` field
appeared. -/
theorem upload_fold_spec (dest : String) (fields : List MPField) :
    ∀ acc : UploadAcc,
      (fields.foldl (upload_field_step dest) acc).hashed =
          acc.hashed ++ ((fields.filter fun f => f.name == "log_zip").map
            (fun f => f.chunks.flatten)).flatten ∧
      (fields.foldl (upload_field_step dest) acc).total =
          acc.total + ((fields.filter fun f => f.name == "log_zip").map
            (fun f => ((f.chunks.map List.length).sum : Int))).sum ∧
      (fields.foldl (upload_field_step dest) acc).saved_path =
          (if (fields.filter fun f => f.name == "log_zip") = [] then
            acc.saved_path
          else some dest) := by
  induction fields with
  | nil => intro acc; simp
  | cons f fs ih =>
    intro acc
    by_cases h : (f.name == "log_zip") = true
    · obtain ⟨h1, h2, h3⟩ := ih (upload_field_step dest acc f)
      have hstep : upload_field_step dest acc f =
          ⟨fsWrite acc.fsFiles dest f.chunks.flatten,
           acc.hashed ++ f.chunks.flatten,
           acc.total + ((f.chunks.map List.length).sum : Int),
           some dest⟩ := by
        simp [upload_field_step, h]
      have hfc : (List.filter (fun f => f.name == "log_zip") (f :: fs)) =
          f :: List.filter (fun f => f.name == "log_zip") fs := by
        simp [List.filter_cons, h]
      refine ⟨?_, ?_, ?_⟩
      · rw [List.foldl_cons, h1, hstep, hfc]
        simp [List.append_assoc]
      · rw [List.foldl_cons, h2, hstep, hfc]
        simp only [List.map_cons, List.sum_cons]
        ring
      · rw [List.foldl_cons, h3, hstep, hfc]
        simp
    · have h' : (f.name == "log_zip") = false := by
        revert h
        cases (f.name == "log_zip") <;> simp
      have hstep : upload_field_step dest acc f = acc := by
        simp [upload_field_step, h']
      have hfc : (List.filter (fun f => f.name == "log_zip") (f :: fs)) =
          List.filter (fun f => f.name == "log_zip") fs := by
        simp [List.filter_cons, h']
      rw [List.foldl_cons, hstep, hfc]
      exact ih acc

/-- The submissions table after an upload: the new row is appended. -/
theorem upload_logs_submissions (H : List Nat → String) (ud : String)
    (meta : LogMeta) (now su au : String) (fields : List MPField) (st : Store) :
    (upload_logs H ud meta now su au fields st).submissions =
      st.submissions ++ [⟨su, meta.submission_id, meta.student_name, now,
        meta.moodle_assignment_id.getD "", meta.client_version.getD "client",
        "received"⟩] := rfl

/-- The artifact row inserted by an upload carrying exactly one
`log_zip` field. -/
theorem upload_logs_single_field (H : List Nat → String) (ud : String)
    (meta : LogMeta) (now su au : String) (fields : List MPField)
    (f0 : MPField) (st : Store)
    (hf : (fields.filter fun f => f.name == "log_zip") = [f0]) :
    (upload_logs H ud meta now su au fields st).logsT =
      st.logsT ++ [⟨au, su, upload_dest ud meta now,
        H f0.chunks.flatten, ((f0.chunks.map List.length).sum : Int)⟩] := by
  obtain ⟨h1, h2, h3⟩ := upload_fold_spec (upload_dest ud meta now) fields
    ⟨st.fsFiles, [], 0, none⟩
  rw [hf] at h1 h2 h3
  have ha1 : (upload_acc ud meta now fields st).hashed = f0.chunks.flatten := by
    rw [show (upload_acc ud meta now fields st).hashed =
      (fields.foldl (upload_field_step (upload_dest ud meta now))
        ⟨st.fsFiles, [], 0, none⟩).hashed from rfl, h1]
    simp
  have ha2 : (upload_acc ud meta now fields st).total =
      ((f0.chunks.map List.length).sum : Int) := by
    rw [show (upload_acc ud meta now fields st).total =
      (fields.foldl (upload_field_step (upload_dest ud meta now))
        ⟨st.fsFiles, [], 0, none⟩).total from rfl, h2]
    simp
  have ha3 : (upload_acc ud meta now fields st).saved_path =
      some (upload_dest ud meta now) := by
    rw [show (upload_acc ud meta now fields st).saved_path =
      (fields.foldl (upload_field_step (upload_dest ud meta now))
        ⟨st.fsFiles, [], 0, none⟩).saved_path from rfl, h3]
    simp
  show (match (upload_acc ud meta now fields st).saved_path with
    | some p => st.logsT ++
        [(⟨au, su, p, H (upload_acc ud meta now fields st).hashed,
          (upload_acc ud meta now fields st).total⟩ : LogArtifactR)]
    | none => st.logsT) = _
  rw [ha3, ha1, ha2]

/-- C9 counterexample: a request whose multipart payload carries no
`log_zip` field still creates the submission row, but no artifact row
references it — refuting "exactly one artifact row in every state". -/
theorem upload_without_log_zip_has_no_artifact :
    ((upload_logs (fun _ => "") "up" ⟨"a1", "alice", none, none⟩ "now" "su1"
        "au1" [] ⟨[], [], [], []⟩).logsT.filter
      fun l => l.submission_ref == "su1") = [] ∧
    ((upload_logs (fun _ => "") "up" ⟨"a1", "alice", none, none⟩ "now" "su1"
        "au1" [] ⟨[], [], [], []⟩).submissions.map fun s => s.id) = ["su1"] := by
  refine ⟨by decide, by decide⟩

/-- C9 (amended): a submission created by an upload whose payload holds
exactly one `log_zip` field is referenced by exactly one artifact row in
every reachable store state — the row the upload inserted — whose
`sha256` is the SHA-256 of that field's bytes (the bytes streamed to
`fs_path` in the upload directory; processing later moves the archive to
the processed directory without touching the row). -/
theorem upload_artifact_unique (H : List Nat → String)
    (upload_dir processed_dir : String) (meta : LogMeta) (now su au : String)
    (fields : List MPField) (f0 : MPField) (st st' : Store)
    (hf : (fields.filter fun f => f.name == "log_zip") = [f0])
    (hlogs : ∀ l ∈ st.logsT, l.submission_ref ≠ su)
    (hreach : StoreReach H upload_dir processed_dir
      (upload_logs H upload_dir meta now su au fields st) st') :
    st'.logsT.filter (fun l => l.submission_ref == su) =
      [⟨au, su, upload_dest upload_dir meta now,
        H f0.chunks.flatten, ((f0.chunks.map List.length).sum : Int)⟩] := by
  let row : LogArtifactR :=
    ⟨au, su, upload_dest upload_dir meta now,
      H f0.chunks.flatten, ((f0.chunks.map List.length).sum : Int)⟩
  let P : Store → Prop := fun s =>
    s.logsT.filter (fun l => l.submission_ref == su) = [row] ∧
    ∃ x ∈ s.submissions, x.id = su
  have hbase : P (upload_logs H upload_dir meta now su au fields st) := by
    constructor
    · rw [upload_logs_single_field H upload_dir meta now su au fields f0 st hf,
        List.filter_append]
      rw [List.filter_eq_nil_iff.mpr (fun l hl => by simp [hlogs l hl])]
      have hself : (su == su) = true := by simp
      simp only [List.nil_append, List.filter_cons, hself, if_true,
        List.filter_nil]
    · refine ⟨⟨su, meta.submission_id, meta.student_name, now,
        meta.moodle_assignment_id.getD "", meta.client_version.getD "client",
        "received"⟩, ?_, rfl⟩
      rw [upload_logs_submissions]
      exact List.mem_append_right _ (List.mem_singleton_self _)
  have hpres : ∀ x y, StoreStep H upload_dir processed_dir x y → P x → P y := by
    intro x y hstep hP
    obtain ⟨hPf, z, hz, hzid⟩ := hP
    cases hstep with
    | upload meta2 now2 su2 au2 fields2 _ hsu2 hau2 =>
      have hne : (su2 == su) = false := by
        have hzx := hsu2 z hz
        rw [hzid] at hzx
        simp [Ne.symm hzx]
      constructor
      · show List.filter (fun l => l.submission_ref == su)
          (match (upload_acc upload_dir meta2 now2 fields2 x).saved_path with
          | some p => x.logsT ++
              [(⟨au2, su2, p,
                H (upload_acc upload_dir meta2 now2 fields2 x).hashed,
                (upload_acc upload_dir meta2 now2 fields2 x).total⟩ :
                LogArtifactR)]
          | none => x.logsT) = [row]
        cases hsv : (upload_acc upload_dir meta2 now2 fields2 x).saved_path with
        | none => exact hPf
        | some p =>
          rw [List.filter_append, hPf]
          simp [hne]
      · refine ⟨z, ?_, hzid⟩
        rw [upload_logs_submissions]
        exact List.mem_append_left _ hz
    | mark sid _ =>
      refine ⟨hPf, ?_⟩
      refine ⟨if z.id == sid then { z with status := "processing" } else z,
        List.mem_map.mpr ⟨z, hz, rfl⟩, ?_⟩
      by_cases h : (z.id == sid) = true
      · rw [if_pos h]
        exact hzid
      · rw [if_neg h]
        exact hzid
    | commit sid fs _ =>
      refine ⟨hPf, ?_⟩
      refine ⟨if z.id == sid then { z with status := "processed" } else z,
        List.mem_map.mpr ⟨z, hz, rfl⟩, ?_⟩
      by_cases h : (z.id == sid) = true
      · rw [if_pos h]
        exact hzid
      · rw [if_neg h]
        exact hzid
    | move src _ =>
      unfold move_processed
      cases hfind : (x.fsFiles.find? fun q => q.1 == src).map Prod.snd with
      | none => exact ⟨hPf, z, hz, hzid⟩
      | some bytes => exact ⟨hPf, z, hz, hzid⟩
  have hmain : ∀ y, StoreReach H upload_dir processed_dir
      (upload_logs H upload_dir meta now su au fields st) y → P y := by
    intro y hy
    induction hy with
    | refl => exact hbase
    | tail hab hbc ih => exact hpres _ _ hbc ih
  exact (hmain st' hreach).1

/-- C9 witness: one `log_zip` field of bytes `[1,2],[3]` on the empty
store, inspected right after the upload. -/
theorem upload_artifact_unique_witness :
    uploadWitnessStore.logsT.filter (fun l => l.submission_ref == "su1") =
      [⟨"au1", "su1", upload_dest "up" ⟨"a1", "alice", none, none⟩ "now",
        (fun _ : List Nat => "h") ([[1, 2], [3]] : List (List Nat)).flatten,
        ((([[1, 2], [3]] : List (List Nat)).map List.length).sum : Int)⟩] :=
  upload_artifact_unique (fun _ => "h") "up" "procdir"
    ⟨"a1", "alice", none, none⟩ "now" "su1" "au1" uploadWitnessFields
    ⟨"log_zip", [[1, 2], [3]]⟩ ⟨[], [], [], []⟩ uploadWitnessStore
    (by decide) (by decide) Relation.ReflTransGen.refl

/-- C10 witness: concrete run of subscribe/subscribe/unsubscribe on an
empty table. -/
theorem subscribe_idempotent_witness :
    subscribe (subscribe [] "p" "a" "c1") "p" "a" "c2" = subscribe [] "p" "a" "c1" ∧
    unsubscribe (subscribe [] "p" "a" "c1") "p" "a" = [] :=
  ⟨(subscribe_idempotent [] "p" "a" "c1" "c2").2.1,
   (subscribe_idempotent [] "p" "a" "c1" "c2").2.2 (by decide)⟩
